import Mathlib

/-!
# Verification of the pmp-cloud-inspector core (resource model, filter engine, drift engine)

Shallow embedding of the Go packages `pkg/resource` (Collection, Add, Get),
`pkg/filter` (the typed filters, their `Apply` methods, and the textual
parsers) and the `compare` command's drift engine
(`generateDriftReport`, `compareResources`).

Modelling conventions:
* Go strings are modelled as `List Char` (`Str`); `strings.Contains`,
  `strings.SplitN(_, _, 2)`, prefix/suffix tests are modelled by executable
  functions on `List Char`.
* Go `map[K]V` values are modelled as association lists whose key order is
  the order of first insertion; a Go map has unique keys, so lemmas that
  need key uniqueness take it as an explicit hypothesis or derive it from
  the construction.  Go map iteration order is unspecified; every property
  proved below is insensitive to the iteration order the model fixes.
* Go `interface{}` property values are modelled by the inductive `GoValue`.
* `float64` is modelled by `ℚ`: every numeric literal appearing in the
  verified claims is small and exactly representable, where comparisons on
  `float64` and on `ℚ` agree.
* `time.Time` is modelled by `Int` (seconds since the Unix epoch), which
  preserves the ordering used by `Before`/`After` and the `Add(24h)` shift.
* Fallible Go functions returning `(T, error)` are modelled as
  `Except Str T`.
-/

set_option linter.unusedVariables false

abbrev Str := List Char

/-- Association-list lookup; models reading `m[k]` from a Go map
(`none` models the missing-key case). -/
def lookupStr {α : Type} (m : List (Str × α)) (k : Str) : Option α :=
  match m with
  | [] => none
  | (k', v) :: rest => if k' = k then some v else lookupStr rest k

/-- Association-list update; models the Go map assignment `m[k] = v`
(replace the existing entry, otherwise append a new one). -/
def upsert {α : Type} (m : List (Str × α)) (k : Str) (v : α) : List (Str × α) :=
  if m.any (fun p => p.1 = k) then
    m.map (fun p => if p.1 = k then (k, v) else p)
  else
    m ++ [(k, v)]

/-- Splits `s` at the first occurrence of `pat`, returning the parts before
and after it; `none` when `pat` does not occur.  Models
`strings.SplitN(s, pat, 2)` (which yields two parts exactly when `pat`
occurs) and, through `isSome`, `strings.Contains`. -/
def splitFirst (pat : Str) : Str → Option (Str × Str)
  | [] => if pat.isPrefixOf ([] : Str) then some ([], []) else none
  | c :: t =>
    if pat.isPrefixOf (c :: t) then some ([], (c :: t).drop pat.length)
    else (splitFirst pat t).map (fun p => (c :: p.1, p.2))

/-- Models `strings.Contains s pat`. -/
def strContains (s pat : Str) : Bool :=
  (splitFirst pat s).isSome

/-- Models `strings.HasSuffix s pat`. -/
def strHasSuffix (s pat : Str) : Bool :=
  pat.reverse.isPrefixOf s.reverse

/-- Models `strings.TrimSuffix s pat` (removes one trailing copy of `pat`
when present). -/
def strTrimSuffix (s pat : Str) : Str :=
  if strHasSuffix s pat then (s.reverse.drop pat.length).reverse else s

/-- Models `strings.Split(s, sep)` for a one-character separator (all
occurrences, as used by the property-path traversal on `"."`). -/
def splitAll (sep : Char) : Str → List Str
  | [] => [[]]
  | c :: t =>
    if c = sep then [] :: splitAll sep t
    else match splitAll sep t with
      | [] => [[c]]
      | p :: rest => (c :: p) :: rest

/-- Models `strings.ToLower` (ASCII case folding; every state value in the
verified claims is ASCII). -/
def lowerStr (s : Str) : Str :=
  s.map Char.toLower

/-- Decimal rendering of a natural number (for `fmt.Sprintf("%v", n)`). -/
def natRender (n : Nat) : Str :=
  if h : n < 10 then [Char.ofNat (48 + n)]
  else natRender (n / 10) ++ [Char.ofNat (48 + n % 10)]
decreasing_by exact Nat.div_lt_self (by omega) (by omega)

/-- Decimal rendering of an integer, as `fmt.Sprintf("%v", i)` renders
`int`/`int64`. -/
def intRender (i : Int) : Str :=
  if i < 0 then '-' :: natRender i.natAbs else natRender i.natAbs

/-- Dynamically-typed Go value (`interface{}`) as stored in
`Resource.Properties`: numbers, strings, booleans, nested mappings,
sequences, and the untyped `nil`. -/
inductive GoValue : Type where
  | vnull : GoValue
  | vint : Int → GoValue
  | vfloat : ℚ → GoValue
  | vbool : Bool → GoValue
  | vstr : Str → GoValue
  | vmap : List (Str × GoValue) → GoValue
  | vlist : List GoValue → GoValue

mutual
/-- Structural deep equality on dynamic values; models
`reflect.DeepEqual` on the values stored in `Properties`.  Key order in
`vmap` is part of the model representation; every claim below compares
either identical representations or scalar values, where this coincides
with Go's order-insensitive map equality. -/
def GoValue.deepEq : GoValue → GoValue → Bool
  | .vnull, .vnull => true
  | .vint i, .vint j => i == j
  | .vfloat p, .vfloat q => p == q
  | .vbool a, .vbool b => a == b
  | .vstr s, .vstr t => s == t
  | .vmap m, .vmap n => deepEqEntries m n
  | .vlist l, .vlist k => deepEqList l k
  | _, _ => false

def deepEqEntries : List (Str × GoValue) → List (Str × GoValue) → Bool
  | [], [] => true
  | (k, v) :: r, (k', v') :: r' => k == k' && GoValue.deepEq v v' && deepEqEntries r r'
  | _, _ => false

def deepEqList : List GoValue → List GoValue → Bool
  | [], [] => true
  | v :: r, v' :: r' => GoValue.deepEq v v' && deepEqList r r'
  | _, _ => false
end

mutual
/-- Models `fmt.Sprintf("%v", v)`.  Ints, bools, strings and `nil` follow
Go exactly.  Floats are rendered as numerator/denominator and nested
maps/sequences in model order without Go's key sorting: no verified claim
renders a float, map or sequence, and the state filter claim uses the same
rendering on both the code side and the spec side, so the difference is
unobservable in every theorem below. -/
def goRender : GoValue → Str
  | .vnull => '<' :: 'n' :: 'i' :: 'l' :: '>' :: []
  | .vint i => intRender i
  | .vfloat q => intRender q.num ++ ('/' :: []) ++ natRender q.den
  | .vbool true => 't' :: 'r' :: 'u' :: 'e' :: []
  | .vbool false => 'f' :: 'a' :: 'l' :: 's' :: 'e' :: []
  | .vstr s => s
  | .vmap m => ('m' :: 'a' :: 'p' :: '[' :: []) ++ goRenderEntries m ++ (']' :: [])
  | .vlist l => ('[' :: []) ++ goRenderList l ++ (']' :: [])

def goRenderEntries : List (Str × GoValue) → Str
  | [] => []
  | (k, v) :: rest => k ++ (':' :: []) ++ goRender v ++ (' ' :: []) ++ goRenderEntries rest

def goRenderList : List GoValue → Str
  | [] => []
  | v :: rest => goRender v ++ (' ' :: []) ++ goRenderList rest
end

/-- Digit value of an ASCII digit character. -/
def digitVal (c : Char) : Option Nat :=
  if '0' ≤ c ∧ c ≤ '9' then some (c.toNat - 48) else none

/-- Value of a non-empty all-digit string. -/
def digitsVal : Str → Option Nat
  | [] => none
  | cs => cs.foldl (fun acc c => match acc, digitVal c with
      | some a, some d => some (a * 10 + d)
      | _, _ => none) (some 0)

/-- Models `strconv.ParseInt(s, 10, 64)`: optional sign, decimal digits,
result within the signed 64-bit range. -/
def parseIntGo (s : Str) : Option Int :=
  let (neg, digits) : Bool × Str :=
    match s with
    | '-' :: rest => (true, rest)
    | '+' :: rest => (false, rest)
    | _ => (false, s)
  match digitsVal digits with
  | none => none
  | some n =>
    let v : Int := if neg then -(n : Int) else (n : Int)
    if -(2 ^ 63) ≤ v ∧ v < 2 ^ 63 then some v else none

/-- Models `strconv.ParseFloat(s, 64)` on the common decimal forms
(optional sign, digits with an optional fractional part, optional decimal
exponent).  Go additionally accepts hexadecimal floats and `Inf`/`NaN`
spellings and saturates on overflow; no verified claim involves those
inputs, and the value is exact (`ℚ`) rather than rounded. -/
def parseFloatQ (s : Str) : Option ℚ :=
  let (neg, s1) : Bool × Str :=
    match s with
    | '-' :: rest => (true, rest)
    | '+' :: rest => (false, rest)
    | _ => (false, s)
  let intPart := s1.takeWhile (fun c => '0' ≤ c ∧ c ≤ '9')
  let s2 := s1.drop intPart.length
  let (fracPart, s3) : Str × Str :=
    match s2 with
    | '.' :: rest => (rest.takeWhile (fun c => '0' ≤ c ∧ c ≤ '9'),
                      rest.drop (rest.takeWhile (fun c => '0' ≤ c ∧ c ≤ '9')).length)
    | _ => ([], s2)
  if intPart = [] ∧ fracPart = [] then none
  else
    let mantissa : ℚ :=
      ((digitsVal (intPart ++ fracPart)).getD 0 : ℚ) / ((10 : ℚ) ^ fracPart.length)
    let signed : ℚ := if neg then -mantissa else mantissa
    match s3 with
    | [] => some signed
    | e :: rest =>
      if e = 'e' ∨ e = 'E' then
        let (eneg, ed) : Bool × Str :=
          match rest with
          | '-' :: r => (true, r)
          | '+' :: r => (false, r)
          | _ => (false, rest)
        if ed ≠ [] ∧ ed.all (fun c => '0' ≤ c ∧ c ≤ '9') then
          match digitsVal ed with
          | some ev => some (if eneg then signed / ((10 : ℚ) ^ ev) else signed * ((10 : ℚ) ^ ev))
          | none => none
        else none
      else none

/-- Models `strconv.ParseBool`. -/
def parseBoolGo (s : Str) : Option Bool :=
  if s ∈ [['1'], ['t'], ['T'], "TRUE".data, "true".data, "True".data] then some true
  else if s ∈ [['0'], ['f'], ['F'], "FALSE".data, "false".data, "False".data] then some false
  else none

/-- Models `filter.parseValue`: int64, then float64, then bool, then the
raw string. -/
def parseValue (s : Str) : GoValue :=
  match parseIntGo s with
  | some i => .vint i
  | none =>
    match parseFloatQ s with
    | some f => .vfloat f
    | none =>
      match parseBoolGo s with
      | some b => .vbool b
      | none => .vstr s

/-- Models `filter.toFloat64`: accepts `float64`/`float32`/`int`/`int64`
values and strings that `strconv.ParseFloat` accepts; everything else is
an error (`none`). -/
def toFloat64 : GoValue → Option ℚ
  | .vfloat q => some q
  | .vint i => some (i : ℚ)
  | .vstr s => parseFloatQ s
  | _ => none

/-! ## Resource model (`pkg/resource`) -/

/-- `resource.Relationship`. -/
structure Relationship : Type where
  rtype : Str
  targetId : Str
  targetType : Str
  properties : List (Str × GoValue)

/-- `resource.ResourceCost`. -/
structure ResourceCost : Type where
  monthlyEstimate : ℚ
  currency : Str
  breakdown : List (Str × ℚ)
  lastUpdated : Int

/-- `resource.Resource`.  `type` is a reserved word in Lean, hence
`type'`; timestamps are epoch seconds (`Int`). -/
structure Resource : Type where
  id : Str
  type' : Str
  name : Str
  provider : Str
  account : Str := []
  region : Str := []
  arn : Str := []
  tags : List (Str × Str) := []
  properties : List (Str × GoValue) := []
  relationships : List Relationship := []
  cost : Option ResourceCost := none
  createdAt : Option Int := none
  updatedAt : Option Int := none

/-- `resource.CostSummary`. -/
structure CostSummary : Type where
  total : ℚ
  currency : Str
  byProvider : List (Str × ℚ)
  byRegion : List (Str × ℚ)
  byType : List (Str × ℚ)
  byTag : List (Str × ℚ)

/-- `resource.CollectionMetadata`. -/
structure CollectionMetadata : Type where
  timestamp : Int
  totalCount : Nat
  byType : List (Str × Nat)
  byProvider : List (Str × Nat)
  byAccount : List (Str × Nat)
  byRegion : List (Str × Nat)
  byTypeAndRegion : List (Str × List (Str × Nat))
  totalCost : Option CostSummary

/-- `resource.Collection`: the ordered resource list, the derived
metadata, and the private id index. -/
structure Collection : Type where
  resources : List Resource
  metadata : CollectionMetadata
  index : List (Str × Resource)

/-- `resource.NewCollection`; `now` stands for the `time.Now()` call. -/
def NewCollection (now : Int) : Collection :=
  { resources := []
    index := []
    metadata :=
      { timestamp := now
        totalCount := 0
        byType := []
        byProvider := []
        byAccount := []
        byRegion := []
        byTypeAndRegion := []
        totalCost := none } }

/-- Increment of a Go counter map: `m[k]++`. -/
def bump (m : List (Str × Nat)) (k : Str) : List (Str × Nat) :=
  upsert m k ((lookupStr m k).getD 0 + 1)

/-- Accumulation into a Go float map: `m[k] += q`. -/
def addQ (m : List (Str × ℚ)) (k : Str) (q : ℚ) : List (Str × ℚ) :=
  upsert m k ((lookupStr m k).getD 0 + q)

/-- `Collection.updateCostMetadata` applied to the metadata value: folds
`resource.Cost.MonthlyEstimate` into the cost summary (initializing it on
first use), keyed by provider, region, type and every `key=value` tag
pair. -/
def updateCostMetadata (md : CollectionMetadata) (r : Resource) (rc : ResourceCost) :
    CollectionMetadata :=
  let s : CostSummary :=
    match md.totalCost with
    | none =>
      { total := 0, currency := rc.currency
        byProvider := [], byRegion := [], byType := [], byTag := [] }
    | some s => s
  let cost := rc.monthlyEstimate
  let s := { s with total := s.total + cost }
  let s := { s with byProvider := addQ s.byProvider r.provider cost }
  let s := if r.region ≠ [] then { s with byRegion := addQ s.byRegion r.region cost } else s
  let s := { s with byType := addQ s.byType r.type' cost }
  let s := { s with byTag :=
      (r.tags.foldl (fun m kv => addQ m (kv.1 ++ ('=' :: []) ++ kv.2) cost) s.byTag) }
  { md with totalCost := some s }

/-- Metadata effect of `Collection.Add`: bump all aggregate dimensions,
then fold in the cost when `resource.Cost.MonthlyEstimate > 0`. -/
def addResourceMeta (md : CollectionMetadata) (r : Resource) : CollectionMetadata :=
  let md := { md with totalCount := md.totalCount + 1 }
  let md := { md with byType := bump md.byType r.type' }
  let md := { md with byProvider := bump md.byProvider r.provider }
  let md := if r.account ≠ [] then { md with byAccount := bump md.byAccount r.account } else md
  let md :=
    if r.region ≠ [] then
      let md := { md with byRegion := bump md.byRegion r.region }
      let inner := (lookupStr md.byTypeAndRegion r.region).getD []
      { md with byTypeAndRegion := upsert md.byTypeAndRegion r.region (bump inner r.type') }
    else md
  match r.cost with
  | some rc => if rc.monthlyEstimate > 0 then updateCostMetadata md r rc else md
  | none => md

/-- `Collection.Add`: append to the ordered list, index by id
(last-write-wins), update the metadata. -/
def Collection.add (c : Collection) (r : Resource) : Collection :=
  { resources := c.resources ++ [r]
    index := upsert c.index r.id r
    metadata := addResourceMeta c.metadata r }

/-- `Collection.Get`: index lookup by id. -/
def Collection.get (c : Collection) (id : Str) : Option Resource :=
  lookupStr c.index id

/-! ## Filter engine (`pkg/filter`): the typed filters and `Apply` -/

/-- `filter.TagOperator`. -/
inductive TagOperator : Type where
  | opExists | opNotExists | opEquals | opContains | opMatches
deriving DecidableEq

/-- `filter.TagFilter`. -/
structure TagFilter : Type where
  key : Str
  value : Str := []
  operator : TagOperator
deriving DecidableEq

/-- `TagFilter.Apply`.  `rm pattern value` stands for
`regexp.MatchString(pattern, value)` with a compile error counting as no
match — the regexp engine is an external collaborator and is passed in as
a parameter; no verified claim depends on it.  Go first special-cases a
nil tag map, but a nil and an empty map behave identically in every
operator branch, so the model does not distinguish them. -/
def TagFilter.apply (rm : Str → Str → Bool) (f : TagFilter) (r : Resource) : Bool :=
  let value? := lookupStr r.tags f.key
  match f.operator with
  | .opExists => value?.isSome
  | .opNotExists => value?.isNone
  | .opEquals => match value? with | some v => v = f.value | none => false
  | .opContains => match value? with | some v => strContains v f.value | none => false
  | .opMatches => match value? with | some v => rm f.value v | none => false

/-- `filter.DateRangeFilter` (`From`/`To` renamed: `from` is reserved). -/
structure DateRangeFilter : Type where
  field : Str
  fromDate : Option Int := none
  toDate : Option Int := none
deriving DecidableEq

/-- `DateRangeFilter.Apply`: pick `createdAt`/`updatedAt` by field name
(any other field never matches), no timestamp never matches, then the
inclusive `Before`/`After` bound checks. -/
def DateRangeFilter.apply (f : DateRangeFilter) (r : Resource) : Bool :=
  let date? : Option (Option Int) :=
    if f.field = ("created".data) then some r.createdAt
    else if f.field = ("updated".data) then some r.updatedAt
    else none
  match date? with
  | none => false
  | some none => false
  | some (some t) =>
    let beforeFrom : Bool := match f.fromDate with | some fr => t < fr | none => false
    let afterTo : Bool := match f.toDate with | some to_ => to_ < t | none => false
    if beforeFrom then false
    else if afterTo then false
    else true

/-- `filter.StateFilter`. -/
structure StateFilter : Type where
  states : List Str
deriving DecidableEq

/-- The fixed probe-key list of `StateFilter.Apply`. -/
def stateKeys : List Str :=
  ["state".data, "status".data, "provisioning_state".data, "lifecycle_state".data]

/-- `StateFilter.Apply`: empty state list matches everything; otherwise
every probe key that is populated is tested (case-insensitively) against
the allowed states, and any match suffices. -/
def StateFilter.apply (f : StateFilter) (r : Resource) : Bool :=
  if f.states.length = 0 then true
  else stateKeys.any (fun k =>
    match lookupStr r.properties k with
    | some st => f.states.any (fun allowed => lowerStr allowed = lowerStr (goRender st))
    | none => false)

/-- `filter.CompareOperator`. -/
inductive CompareOperator : Type where
  | opEq | opNe | opGt | opGe | opLt | opLe | opContains | opStartsWith | opEndsWith
deriving DecidableEq

/-- `filter.PropertyFilter`. -/
structure PropertyFilter : Type where
  path : Str
  operator : CompareOperator
  value : GoValue

/-- `PropertyFilter.getPropertyValue`: dotted-path traversal into the
properties mapping.  A missing key yields Go's untyped `nil` (`vnull`),
and a non-mapping intermediate value short-circuits to `nil`. -/
def walkPath : GoValue → List Str → GoValue
  | v, [] => v
  | .vmap m, p :: rest => walkPath ((lookupStr m p).getD .vnull) rest
  | _, _ :: _ => .vnull

/-- `PropertyFilter.compareNumeric`: coerce both operands with
`toFloat64`; any coercion failure means no match. -/
def PropertyFilter.compareNumeric (f : PropertyFilter) (actual expected : GoValue) : Bool :=
  match toFloat64 actual, toFloat64 expected with
  | some a, some e =>
    match f.operator with
    | .opGt => e < a
    | .opGe => e ≤ a
    | .opLt => a < e
    | .opLe => a ≤ e
    | _ => false
  | _, _ => false

/-- `PropertyFilter.compare`: string-rendering comparison for
equality/string operators, numeric comparison for the four numeric
operators. -/
def PropertyFilter.compare (f : PropertyFilter) (actual expected : GoValue) : Bool :=
  match f.operator with
  | .opEq => goRender actual = goRender expected
  | .opNe => goRender actual ≠ goRender expected
  | .opContains => strContains (lowerStr (goRender actual)) (lowerStr (goRender expected))
  | .opStartsWith => (lowerStr (goRender expected)).isPrefixOf (lowerStr (goRender actual))
  | .opEndsWith => strHasSuffix (lowerStr (goRender actual)) (lowerStr (goRender expected))
  | .opGt | .opGe | .opLt | .opLe => f.compareNumeric actual expected

/-- `PropertyFilter.Apply`: resolve the path (a `nil` result never
matches), then compare. -/
def PropertyFilter.apply (f : PropertyFilter) (r : Resource) : Bool :=
  match walkPath (.vmap r.properties) (splitAll '.' f.path) with
  | .vnull => false
  | v => f.compare v f.value

/-- `filter.CostFilter`. -/
structure CostFilter : Type where
  minCost : Option ℚ := none
  maxCost : Option ℚ := none
deriving DecidableEq

/-- The property probe of `CostFilter.Apply`: `properties["cost"]`,
falling back to `properties["monthly_cost"]`; the structured
`Resource.Cost` field is never consulted. -/
def costProperty (r : Resource) : Option GoValue :=
  match lookupStr r.properties ("cost".data) with
  | some v => some v
  | none => lookupStr r.properties ("monthly_cost".data)

/-- `CostFilter.Apply`: read `properties["cost"]`, falling back to
`properties["monthly_cost"]`; no such property (or a non-numeric one)
never matches; otherwise the inclusive min/max bound checks. -/
def CostFilter.apply (f : CostFilter) (r : Resource) : Bool :=
  match costProperty r with
  | none => false
  | some v =>
    match toFloat64 v with
    | none => false
    | some cost =>
      let belowMin : Bool := match f.minCost with | some mn => cost < mn | none => false
      let aboveMax : Bool := match f.maxCost with | some mx => mx < cost | none => false
      if belowMin then false
      else if aboveMax then false
      else true

/-- `filter.TypeFilter`. -/
structure TypeFilter : Type where
  types : List Str
deriving DecidableEq

/-- `TypeFilter.Apply`: empty list matches everything. -/
def TypeFilter.apply (f : TypeFilter) (r : Resource) : Bool :=
  if f.types.length = 0 then true
  else f.types.any (fun t => t = r.type')

/-- `filter.ProviderFilter`. -/
structure ProviderFilter : Type where
  providers : List Str
deriving DecidableEq

/-- `ProviderFilter.Apply`: empty list matches everything. -/
def ProviderFilter.apply (f : ProviderFilter) (r : Resource) : Bool :=
  if f.providers.length = 0 then true
  else f.providers.any (fun p => p = r.provider)

/-- `filter.LogicOperator`. -/
inductive LogicOp : Type where
  | and | or
deriving DecidableEq

/-- The closed universe of `filter.Filter` implementations, composed with
`CompositeFilter`.  The `RegexFilter` variant is omitted: its `Apply`
delegates to the external regexp engine and no verified claim mentions
it. -/
inductive GoFilter : Type where
  | ftag : TagFilter → GoFilter
  | fdate : DateRangeFilter → GoFilter
  | fstate : StateFilter → GoFilter
  | fprop : PropertyFilter → GoFilter
  | fcost : CostFilter → GoFilter
  | ftype : TypeFilter → GoFilter
  | fprovider : ProviderFilter → GoFilter
  | fcomposite : List GoFilter → LogicOp → GoFilter

mutual
/-- Dynamic dispatch of `Filter.Apply`; `CompositeFilter.Apply` matches
everything when empty, folds with OR when `Logic == LogicOR`, and with
AND otherwise. -/
def GoFilter.apply (rm : Str → Str → Bool) : GoFilter → Resource → Bool
  | .ftag f, r => TagFilter.apply rm f r
  | .fdate f, r => f.apply r
  | .fstate f, r => f.apply r
  | .fprop f, r => f.apply r
  | .fcost f, r => f.apply r
  | .ftype f, r => f.apply r
  | .fprovider f, r => f.apply r
  | .fcomposite fs lg, r =>
    if fs.length = 0 then true
    else match lg with
      | .or => anyApply rm fs r
      | .and => allApply rm fs r

def anyApply (rm : Str → Str → Bool) : List GoFilter → Resource → Bool
  | [], _ => false
  | f :: t, r => GoFilter.apply rm f r || anyApply rm t r

def allApply (rm : Str → Str → Bool) : List GoFilter → Resource → Bool
  | [], _ => true
  | f :: t, r => GoFilter.apply rm f r && allApply rm t r
end

/-- `filter.ApplyFilters`.  The Go function copies
`collection.Metadata` into the fresh collection by struct assignment and
then re-`Add`s every match.  The struct copy shares the underlying map
objects (`ByType`, `ByProvider`, `ByAccount`, `ByRegion`,
`ByTypeAndRegion`) and, when non-nil, the `*CostSummary`, so every
`Add` on the new collection also writes through to the source's
metadata; only the plain-value fields (`Timestamp`, `TotalCount`) and a
`TotalCost` that started out nil stay private to each struct.  The model
returns both results of the call: `.1` is the returned filtered
collection and `.2` is the source collection as observable after the
call. -/
def ApplyFilters (rm : Str → Str → Bool) (now : Int) (c : Collection)
    (filters : List GoFilter) : Collection × Collection :=
  if filters.length = 0 then (c, c)
  else
    let composite := GoFilter.fcomposite filters .and
    let start : Collection := { NewCollection now with metadata := c.metadata }
    let filtered := (c.resources.filter (fun r => GoFilter.apply rm composite r)).foldl
      Collection.add start
    let sourceAfter : Collection :=
      { c with metadata :=
          { filtered.metadata with
              timestamp := c.metadata.timestamp
              totalCount := c.metadata.totalCount
              totalCost :=
                match c.metadata.totalCost with
                | none => none
                | some _ => filtered.metadata.totalCost } }
    (filtered, sourceAfter)

/-! ## Filter engine: the textual parsers (`pkg/filter/parser.go`) -/

/-- `filter.ParseTagFilter`: regex form first (`=/` with a trailing
slash), then `!=` (not-exists only; a non-empty right-hand side is a
descriptive error), then `~` (contains), then `=` (equals), else a bare
key means tag-exists. -/
def ParseTagFilter (expr : Str) : Except Str TagFilter :=
  if expr = [] then .error ("empty tag filter expression".data)
  else if strContains expr ('=' :: '/' :: []) && strHasSuffix expr ('/' :: []) then
    match splitFirst ('=' :: '/' :: []) expr with
    | some (k, rest) =>
      .ok { key := k, value := strTrimSuffix rest ('/' :: []), operator := .opMatches }
    | none => .error (("invalid tag regex filter: ".data) ++ expr)
  else if strContains expr ('!' :: '=' :: []) then
    match splitFirst ('!' :: '=' :: []) expr with
    | some (k, v) =>
      if v = [] then .ok { key := k, operator := .opNotExists }
      else .error ("tag != operator not directly supported, use regex instead".data)
    | none => .error (("invalid tag filter: ".data) ++ expr)
  else if strContains expr ('~' :: []) then
    match splitFirst ('~' :: []) expr with
    | some (k, v) => .ok { key := k, value := v, operator := .opContains }
    | none => .error (("invalid tag contains filter: ".data) ++ expr)
  else if strContains expr ('=' :: []) then
    match splitFirst ('=' :: []) expr with
    | some (k, v) => .ok { key := k, value := v, operator := .opEquals }
    | none => .error (("invalid tag equals filter: ".data) ++ expr)
  else .ok { key := expr, operator := .opExists }

/-- Two ASCII digits as a number. -/
def val2 (c1 c2 : Char) : Option Nat :=
  match digitVal c1, digitVal c2 with
  | some a, some b => some (a * 10 + b)
  | _, _ => none

/-- Leap-year rule of the proleptic Gregorian calendar (as used by
`time.Parse` validation). -/
def isLeap (y : Nat) : Bool :=
  y % 4 = 0 && (y % 100 ≠ 0 || y % 400 = 0)

/-- Days in a month, for `time.Parse`'s day-of-month validation. -/
def daysInMonth (y m : Nat) : Nat :=
  if m = 2 then (if isLeap y then 29 else 28)
  else if m ∈ [4, 6, 9, 11] then 30
  else 31

/-- Days since 1970-01-01 of a Gregorian date (standard civil-from-days
inverse; divisions are on non-negative operands after the era shift, so
`Int` truncated division is exact). -/
def daysFromCivil (y m d : Int) : Int :=
  let y := if m ≤ 2 then y - 1 else y
  let era := (if 0 ≤ y then y else y - 399) / 400
  let yoe := y - era * 400
  let doy := (153 * (m + (if 2 < m then -3 else 9)) + 2) / 5 + d - 1
  let doe := yoe * 365 + yoe / 4 - yoe / 100 + doy
  era * 146097 + doe - 719468

/-- `"2006-01-02"`: ten characters `YYYY-MM-DD` with `time.Parse`'s range
validation, as epoch seconds at midnight UTC. -/
def parseYMD (s : Str) : Option Int :=
  match s with
  | [y1, y2, y3, y4, '-', m1, m2, '-', d1, d2] =>
    match val2 y1 y2, val2 y3 y4, val2 m1 m2, val2 d1 d2 with
    | some yh, some yl, some m, some d =>
      let y := yh * 100 + yl
      if 1 ≤ m ∧ m ≤ 12 ∧ 1 ≤ d ∧ d ≤ daysInMonth y m then
        some (daysFromCivil y m d * 86400)
      else none
    | _, _, _, _ => none
  | _ => none

/-- `"15:04:05"`: eight characters `HH:MM:SS`, as seconds within the
day. -/
def parseHMS (s : Str) : Option Int :=
  match s with
  | [h1, h2, ':', m1, m2, ':', s1, s2] =>
    match val2 h1 h2, val2 m1 m2, val2 s1 s2 with
    | some h, some m, some sec =>
      if h ≤ 23 ∧ m ≤ 59 ∧ sec ≤ 59 then some ((h * 3600 + m * 60 + sec : Nat) : Int)
      else none
    | _, _, _ => none
  | _ => none

/-- `"2006-01-02T15:04:05"` (no offset). -/
def parseDateTimeT (sep : Char) (s : Str) : Option Int :=
  if s.length = 19 then
    match s.drop 10 with
    | c :: timePart =>
      if c = sep then
        match parseYMD (s.take 10), parseHMS timePart with
        | some days, some secs => some (days + secs)
        | _, _ => none
      else none
    | [] => none
  else none

/-- `time.RFC3339`: date, `T`, time, then `Z` or a `±HH:MM` offset.
Fractional seconds (which Go's `Parse` would also accept) are not
modelled; no verified claim uses them. -/
def parseRFC3339 (s : Str) : Option Int :=
  match s.drop 10 with
  | 'T' :: rest =>
    match parseYMD (s.take 10), parseHMS (rest.take 8) with
    | some days, some secs =>
      match rest.drop 8 with
      | ['Z'] => some (days + secs)
      | [sign, h1, h2, ':', m1, m2] =>
        match val2 h1 h2, val2 m1 m2 with
        | some oh, some om =>
          if (sign = '+' ∨ sign = '-') ∧ oh ≤ 23 ∧ om ≤ 59 then
            let off : Int := ((oh * 3600 + om * 60 : Nat) : Int)
            some (days + secs - (if sign = '+' then off else -off))
          else none
        | _, _ => none
      | _ => none
    | _, _ => none
  | _ => none

/-- `filter.parseDate`: the accepted formats tried in order (full RFC3339
timestamp, bare date, `T`-separated date-time, space-separated
date-time). -/
def parseDate (s : Str) : Option Int :=
  match parseRFC3339 s with
  | some t => some t
  | none =>
    match parseYMD s with
    | some t => some t
    | none =>
      match parseDateTimeT 'T' s with
      | some t => some t
      | none => parseDateTimeT ' ' s

/-- `filter.ParseDateRangeFilter`: `FIELD:FROM..TO`, `FIELD:>DATE`,
`FIELD:<DATE`, or `FIELD:DATE` (a single date covers that day by setting
`From = DATE` and `To = DATE + 24h`). -/
def ParseDateRangeFilter (expr : Str) : Except Str DateRangeFilter :=
  match splitFirst (':' :: []) expr with
  | none => .error (("invalid date filter format, expected field:range: ".data) ++ expr)
  | some (field, rangeExpr) =>
    if strContains rangeExpr ('.' :: '.' :: []) then
      match splitFirst ('.' :: '.' :: []) rangeExpr with
      | some (d1, d2) =>
        -- Go splits on every ".."; more than one occurrence means more
        -- than two parts, which is rejected before any date is parsed
        if strContains d2 ('.' :: '.' :: []) then
          .error (("invalid date range: ".data) ++ rangeExpr)
        else
          match parseDate d1 with
          | none => .error ("invalid from date".data)
          | some fr =>
            match parseDate d2 with
            | none => .error ("invalid to date".data)
            | some to_ => .ok { field := field, fromDate := some fr, toDate := some to_ }
      | none => .error (("invalid date range: ".data) ++ rangeExpr)
    else
      match rangeExpr with
      | '>' :: dateStr =>
        match parseDate dateStr with
        | none => .error ("invalid date".data)
        | some fr => .ok { field := field, fromDate := some fr }
      | '<' :: dateStr =>
        match parseDate dateStr with
        | none => .error ("invalid date".data)
        | some to_ => .ok { field := field, toDate := some to_ }
      | _ =>
        match parseDate rangeExpr with
        | none => .error ("invalid date".data)
        | some d => .ok { field := field, fromDate := some d, toDate := some (d + 86400) }

/-- The operator table of `filter.ParsePropertyFilter`, in its precedence
order. -/
def propOperators : List (CompareOperator × Str) :=
  [(.opGe, ['>', '=']), (.opLe, ['<', '=']), (.opNe, ['!', '=']), (.opEq, ['=']),
   (.opGt, ['>']), (.opLt, ['<']), (.opContains, ['~']),
   (.opStartsWith, ['^', '=']), (.opEndsWith, ['$', '='])]

/-- The operator-sniffing loop of `ParsePropertyFilter`: the first table
entry whose symbol occurs in the expression wins, and the expression is
split at that symbol's first occurrence. -/
def findOp : List (CompareOperator × Str) → Str → Except Str PropertyFilter
  | [], expr => .error (("no operator found in property filter: ".data) ++ expr)
  | (op, sym) :: rest, expr =>
    match splitFirst sym expr with
    | some (a, b) => .ok { path := a, operator := op, value := parseValue b }
    | none => findOp rest expr

/-- `filter.ParsePropertyFilter`. -/
def ParsePropertyFilter (expr : Str) : Except Str PropertyFilter :=
  findOp propOperators expr

/-! ## Drift engine (`cmd/pmp-cloud-inspector/compare.go`) -/

/-- A recorded field change: path, old value, new value (Go's
`map[string]PropertyChange` entry; the map's keys are pairwise distinct by
construction, so the model's insertion-ordered list carries the same
information). -/
abbrev Change := Str × GoValue × GoValue

/-- `compare.ResourceDiff`. -/
structure ResourceDiff : Type where
  resourceId : Str
  resourceType : Str
  name : Str
  changes : List Change
  baseResource : Resource
  newResource : Resource

/-- `compare.DriftSummary`. -/
structure DriftSummary : Type where
  totalAdded : Nat
  totalRemoved : Nat
  totalModified : Nat
  totalUnchanged : Nat

/-- `compare.DriftReport`. -/
structure DriftReport : Type where
  baseTimestamp : Int
  compareTimestamp : Int
  added : List Resource
  removed : List Resource
  modified : List ResourceDiff
  summary : DriftSummary

/-- A tag map as a dynamic value (for recording a tags change). -/
def tagsVal (tags : List (Str × Str)) : GoValue :=
  .vmap (tags.map (fun kv => (kv.1, .vstr kv.2)))

/-- The base-side property loop of `compareResources`: a key missing on
the compare side records `new = nil`; a key present with a deep-unequal
value records both values. -/
def propChangesBase (cprops : List (Str × GoValue)) : List (Str × GoValue) → List Change
  | [] => []
  | (k, bv) :: rest =>
    (match lookupStr cprops k with
     | none => [(("properties.".data) ++ k, (bv, .vnull))]
     | some cv =>
       if GoValue.deepEq bv cv then [] else [(("properties.".data) ++ k, (bv, cv))]) ++
    propChangesBase cprops rest

/-- The compare-side property loop: keys absent on the base side record
`old = nil`. -/
def propChangesNew (bprops : List (Str × GoValue)) : List (Str × GoValue) → List Change
  | [] => []
  | (k, cv) :: rest =>
    (match lookupStr bprops k with
     | some _ => []
     | none => [(("properties.".data) ++ k, (.vnull, cv))]) ++
    propChangesNew bprops rest

/-- `compare.compareResources`: field-level diff of two same-id resources
(`name`, `region`, whole tag map, both property directions, then
`updated_at` when both sides have it).  Tag-map equality is
`reflect.DeepEqual`; the model compares the representations, which agree
on every comparison a claim below performs (identical representations or
equal literal maps).  Go additionally distinguishes a nil tag map from an
empty one; the model has a single empty representation and no claim
involves that distinction. -/
def compareResources (b c : Resource) : ResourceDiff :=
  let changes : List Change :=
    (if b.name = c.name then [] else [("name".data, (.vstr b.name, .vstr c.name))]) ++
    (if b.region = c.region then [] else [("region".data, (.vstr b.region, .vstr c.region))]) ++
    (if b.tags = c.tags then [] else [("tags".data, (tagsVal b.tags, tagsVal c.tags))]) ++
    propChangesBase c.properties b.properties ++
    propChangesNew b.properties c.properties ++
    (match b.updatedAt, c.updatedAt with
     | some t1, some t2 =>
       if t1 = t2 then [] else [("updated_at".data, (.vint t1, .vint t2))]
     | _, _ => [])
  { resourceId := b.id, resourceType := b.type', name := b.name, changes := changes,
    baseResource := b, newResource := c }

/-- The id-index loop of `generateDriftReport`
(`index[res.ID] = res` over the resource list: last write wins). -/
def buildIndexAux (idx : List (Str × Resource)) : List Resource → List (Str × Resource)
  | [] => idx
  | r :: rest => buildIndexAux (upsert idx r.id r) rest

/-- Index of a resource list by id, starting from the empty map. -/
def buildIndex (rs : List Resource) : List (Str × Resource) :=
  buildIndexAux [] rs

/-- The added/modified/unchanged loop of `generateDriftReport` over the
compare-side index (Go map iteration order is unspecified; the model
iterates the index in its list order). -/
def scanCompare (baseIndex : List (Str × Resource)) :
    List (Str × Resource) → List Resource × List ResourceDiff × Nat
  | [] => ([], [], 0)
  | (id, cres) :: rest =>
    let acc := scanCompare baseIndex rest
    match lookupStr baseIndex id with
    | none => (cres :: acc.1, acc.2.1, acc.2.2)
    | some bres =>
      let d := compareResources bres cres
      if d.changes.length = 0 then (acc.1, acc.2.1, acc.2.2 + 1)
      else (acc.1, d :: acc.2.1, acc.2.2)

/-- `compare.generateDriftReport`: index both sides by id, removed = base
ids absent from compare, added = compare ids absent from base, and a
field-level diff for ids on both sides; pairs with no recorded change are
only counted (the report has no unchanged resource list). -/
def generateDriftReport (base compare : Collection) : DriftReport :=
  let baseIndex := buildIndex base.resources
  let compareIndex := buildIndex compare.resources
  let removed := (baseIndex.filter (fun p => (lookupStr compareIndex p.1).isNone)).map
    (fun p => p.2)
  let scanned := scanCompare baseIndex compareIndex
  { baseTimestamp := base.metadata.timestamp
    compareTimestamp := compare.metadata.timestamp
    added := scanned.1
    removed := removed
    modified := scanned.2.1
    summary :=
      { totalAdded := scanned.1.length
        totalRemoved := removed.length
        totalModified := scanned.2.1.length
        totalUnchanged := scanned.2.2 } }

/-- The claim's reading of `StateFilter.Apply`, stated from the spec
sentence "membership test against the first populated value among a fixed
probe-key list": only the first probe key that is populated is consulted,
and later keys are ignored.  Kept separate from the code-derived
`StateFilter.apply` so the two can be compared. -/
def stateFilterSpecApply (f : StateFilter) (r : Resource) : Bool :=
  match stateKeys.find? (fun k => (lookupStr r.properties k).isSome) with
  | none => false
  | some k =>
    match lookupStr r.properties k with
    | some v => f.states.any (fun allowed => lowerStr allowed = lowerStr (goRender v))
    | none => false

/-! ## Association-list and string lemmas -/

theorem lookup_map_replace {α : Type} (k : Str) (v : α) :
    ∀ m : List (Str × α), m.any (fun p => p.1 = k) = true →
      lookupStr (m.map (fun p => if p.1 = k then (k, v) else p)) k = some v := by
  intro m h
  induction m with
  | nil => simp at h
  | cons p rest ih =>
    rw [List.map_cons]
    by_cases hp : p.1 = k
    · rw [if_pos hp]
      simp [lookupStr]
    · rw [if_neg hp]
      simp only [lookupStr]
      rw [if_neg hp]
      apply ih
      simp only [List.any_cons, Bool.or_eq_true, decide_eq_true_eq] at h
      rcases h with h | h
      · exact absurd h hp
      · exact h

theorem lookup_append_self {α : Type} (k : Str) (v : α) :
    ∀ m : List (Str × α), m.any (fun p => p.1 = k) = false →
      lookupStr (m ++ [(k, v)]) k = some v := by
  intro m h
  induction m with
  | nil => simp [lookupStr]
  | cons p rest ih =>
    simp only [List.any_cons, Bool.or_eq_false_iff, decide_eq_false_iff_not] at h
    simp only [List.cons_append, lookupStr, if_neg h.1]
    exact ih h.2

/-- After `m[k] = v`, reading `m[k]` yields `v`. -/
theorem lookupStr_upsert_self {α : Type} (m : List (Str × α)) (k : Str) (v : α) :
    lookupStr (upsert m k v) k = some v := by
  unfold upsert
  by_cases h : m.any (fun p => p.1 = k) = true
  · rw [if_pos h]
    exact lookup_map_replace k v m h
  · rw [if_neg h]
    exact lookup_append_self k v m (Bool.eq_false_iff.mpr h)

theorem lookup_of_mem_nodup {α : Type} (k : Str) (v : α) :
    ∀ m : List (Str × α), (m.map Prod.fst).Nodup → (k, v) ∈ m →
      lookupStr m k = some v := by
  intro m hn hm
  induction m with
  | nil => cases hm
  | cons p rest ih =>
    rw [List.map_cons, List.nodup_cons] at hn
    rcases List.mem_cons.mp hm with h | h
    · rw [← h]
      simp [lookupStr]
    · have hk : p.1 ≠ k := by
        intro he
        exact hn.1 (he ▸ List.mem_map.mpr ⟨(k, v), h, rfl⟩)
      simp only [lookupStr, if_neg hk]
      exact ih hn.2 h

theorem upsert_mem {α : Type} {m : List (Str × α)} {k : Str} {v : α} {p : Str × α}
    (h : p ∈ upsert m k v) : p = (k, v) ∨ p ∈ m := by
  unfold upsert at h
  by_cases ha : m.any (fun q => q.1 = k) = true
  · rw [if_pos ha] at h
    rcases List.mem_map.mp h with ⟨q, hq, he⟩
    by_cases hk : q.1 = k
    · left
      rw [if_pos hk] at he
      exact he.symm
    · right
      rw [if_neg hk] at he
      exact he ▸ hq
  · rw [if_neg ha] at h
    rcases List.mem_append.mp h with h | h
    · right; exact h
    · left; simpa using h

theorem map_replace_keys {α : Type} (k : Str) (v : α) :
    ∀ m : List (Str × α),
      ((m.map (fun p => if p.1 = k then (k, v) else p)).map Prod.fst) = m.map Prod.fst := by
  intro m
  induction m with
  | nil => rfl
  | cons p rest ih =>
    rw [List.map_cons, List.map_cons, List.map_cons]
    by_cases hp : p.1 = k
    · rw [if_pos hp]
      simp only [List.cons.injEq]
      exact ⟨hp.symm, ih⟩
    · rw [if_neg hp]
      simp only [List.cons.injEq, true_and]
      exact ih

theorem upsert_keys_nodup {α : Type} (k : Str) (v : α) (m : List (Str × α))
    (hn : (m.map Prod.fst).Nodup) : ((upsert m k v).map Prod.fst).Nodup := by
  unfold upsert
  by_cases ha : m.any (fun q => q.1 = k) = true
  · rw [if_pos ha, map_replace_keys]
    exact hn
  · rw [if_neg ha, List.map_append, List.map_cons, List.map_nil]
    apply List.Nodup.append hn (List.nodup_singleton _)
    intro a haM haK
    simp only [List.mem_singleton] at haK
    subst haK
    rcases List.mem_map.mp haM with ⟨q, hq, he⟩
    exact ha (List.any_eq_true.mpr ⟨q, hq, by simp [he]⟩)

theorem buildIndexAux_keys_nodup :
    ∀ (rs : List Resource) (idx : List (Str × Resource)),
      (idx.map Prod.fst).Nodup → ((buildIndexAux idx rs).map Prod.fst).Nodup := by
  intro rs
  induction rs with
  | nil => intro idx h; exact h
  | cons r rest ih =>
    intro idx h
    exact ih (upsert idx r.id r) (upsert_keys_nodup r.id r idx h)

theorem buildIndexAux_mem :
    ∀ (rs : List Resource) (idx : List (Str × Resource)) (p : Str × Resource),
      p ∈ buildIndexAux idx rs → p ∈ idx ∨ p.2 ∈ rs := by
  intro rs
  induction rs with
  | nil => intro idx p h; exact Or.inl h
  | cons r rest ih =>
    intro idx p h
    rcases ih (upsert idx r.id r) p h with h | h
    · rcases upsert_mem h with h | h
      · right
        rw [h]
        exact List.mem_cons_self _ _
      · exact Or.inl h
    · right
      exact List.mem_cons_of_mem _ h

/-- The id index has pairwise-distinct keys (it is a Go map). -/
theorem buildIndex_keys_nodup (rs : List Resource) :
    ((buildIndex rs).map Prod.fst).Nodup :=
  buildIndexAux_keys_nodup rs [] List.nodup_nil

/-- Every indexed resource comes from the indexed list. -/
theorem buildIndex_mem {rs : List Resource} {p : Str × Resource}
    (h : p ∈ buildIndex rs) : p.2 ∈ rs := by
  rcases buildIndexAux_mem rs [] p h with h | h
  · cases h
  · exact h

/-- Looking up an indexed entry's key returns its value. -/
theorem buildIndex_lookup {rs : List Resource} {k : Str} {r : Resource}
    (h : (k, r) ∈ buildIndex rs) : lookupStr (buildIndex rs) k = some r :=
  lookup_of_mem_nodup k r (buildIndex rs) (buildIndex_keys_nodup rs) h

mutual
theorem GoValue.deepEq_refl : ∀ v : GoValue, GoValue.deepEq v v = true
  | .vnull => rfl
  | .vint i => by simp [GoValue.deepEq]
  | .vfloat q => by simp [GoValue.deepEq]
  | .vbool b => by cases b <;> rfl
  | .vstr s => by simp [GoValue.deepEq]
  | .vmap m => by
    rw [GoValue.deepEq]
    exact deepEqEntries_refl m
  | .vlist l => by
    rw [GoValue.deepEq]
    exact deepEqList_refl l

theorem deepEqEntries_refl : ∀ m : List (Str × GoValue), deepEqEntries m m = true
  | [] => rfl
  | (k, v) :: r => by
    rw [deepEqEntries]
    simp only [Bool.and_eq_true, beq_self_eq_true, true_and]
    exact ⟨GoValue.deepEq_refl v, deepEqEntries_refl r⟩

theorem deepEqList_refl : ∀ l : List GoValue, deepEqList l l = true
  | [] => rfl
  | v :: r => by
    rw [deepEqList]
    simp only [Bool.and_eq_true]
    exact ⟨GoValue.deepEq_refl v, deepEqList_refl r⟩
end

theorem propChangesBase_self (cprops : List (Str × GoValue)) :
    ∀ l : List (Str × GoValue), (∀ p ∈ l, lookupStr cprops p.1 = some p.2) →
      propChangesBase cprops l = [] := by
  intro l h
  induction l with
  | nil => rfl
  | cons p rest ih =>
    obtain ⟨k, bv⟩ := p
    have hl : lookupStr cprops k = some bv := h (k, bv) (List.mem_cons_self _ _)
    rw [propChangesBase, hl]
    simp only [GoValue.deepEq_refl, if_true, List.nil_append]
    exact ih (fun q hq => h q (List.mem_cons_of_mem _ hq))

theorem propChangesNew_none (bprops : List (Str × GoValue)) :
    ∀ l : List (Str × GoValue), (∀ p ∈ l, (lookupStr bprops p.1).isSome) →
      propChangesNew bprops l = [] := by
  intro l h
  induction l with
  | nil => rfl
  | cons p rest ih =>
    obtain ⟨k, cv⟩ := p
    have hl : (lookupStr bprops k).isSome := h (k, cv) (List.mem_cons_self _ _)
    rw [propChangesNew]
    obtain ⟨w, hw⟩ := Option.isSome_iff_exists.mp hl
    rw [hw]
    simp only [List.nil_append]
    exact ih (fun q hq => h q (List.mem_cons_of_mem _ hq))

/-- Diffing a resource against itself records no change (its property
keys are unique, as they come from a Go map). -/
theorem compareResources_self_changes (r : Resource)
    (h : (r.properties.map Prod.fst).Nodup) :
    (compareResources r r).changes = [] := by
  have hlook : ∀ p ∈ r.properties, lookupStr r.properties p.1 = some p.2 := by
    intro p hp
    exact lookup_of_mem_nodup p.1 p.2 r.properties h (by simpa using hp)
  unfold compareResources
  simp only [if_pos rfl, List.nil_append]
  rw [propChangesBase_self r.properties r.properties hlook]
  rw [propChangesNew_none r.properties r.properties
    (fun p hp => by rw [hlook p hp]; rfl)]
  simp only [List.nil_append, List.append_nil]
  cases r.updatedAt with
  | none => rfl
  | some t => simp

theorem scanCompare_all_unchanged (bI : List (Str × Resource)) :
    ∀ l : List (Str × Resource),
      (∀ p ∈ l, lookupStr bI p.1 = some p.2 ∧ (compareResources p.2 p.2).changes = []) →
      scanCompare bI l = ([], [], l.length) := by
  intro l h
  induction l with
  | nil => rfl
  | cons p rest ih =>
    obtain ⟨id, cres⟩ := p
    have hp := h (id, cres) (List.mem_cons_self _ _)
    rw [scanCompare, ih (fun q hq => h q (List.mem_cons_of_mem _ hq)), hp.1]
    simp only [hp.2, List.length_nil, if_pos rfl]
    rfl

theorem splitFirst_eq_append {pat : Str} :
    ∀ {s b a : Str}, splitFirst pat s = some (b, a) → s = b ++ pat ++ a := by
  intro s
  induction s with
  | nil =>
    intro b a h
    rw [splitFirst] at h
    by_cases hp : pat.isPrefixOf ([] : Str)
    · rw [if_pos hp] at h
      have hpat : pat = [] := by
        cases pat with
        | nil => rfl
        | cons c t => simp [List.isPrefixOf] at hp
      cases h
      simp [hpat]
    · rw [if_neg hp] at h
      cases h
  | cons c t ih =>
    intro b a h
    rw [splitFirst] at h
    by_cases hp : pat.isPrefixOf (c :: t)
    · rw [if_pos hp] at h
      have hpre : pat <+: c :: t := by
        rwa [← List.isPrefixOf_iff_prefix]
      obtain ⟨u, hu⟩ := hpre
      cases h
      have hdrop : (c :: t).drop pat.length = u := by
        rw [← hu, List.drop_left]
      rw [hdrop, List.nil_append]
      exact hu.symm
    · rw [if_neg hp] at h
      cases hsf : splitFirst pat t with
      | none => rw [hsf] at h; cases h
      | some p =>
        obtain ⟨p1, p2⟩ := p
        rw [hsf, Option.map_some'] at h
        cases h
        have ht := ih hsf
        simp only [List.cons_append, List.cons.injEq, true_and]
        exact ht

theorem splitFirst_append_left {pat : Str} :
    ∀ (x : Str) {y b0 a0 : Str}, splitFirst pat y = some (b0, a0) →
      ∃ b a, splitFirst pat (x ++ y) = some (b, a) ∧ a0.length ≤ a.length := by
  intro x
  induction x with
  | nil =>
    intro y b0 a0 h
    exact ⟨b0, a0, h, Nat.le_refl _⟩
  | cons c t ih =>
    intro y b0 a0 h
    rw [List.cons_append, splitFirst]
    by_cases hp : pat.isPrefixOf (c :: (t ++ y))
    · rw [if_pos hp]
      refine ⟨[], (c :: (t ++ y)).drop pat.length, rfl, ?_⟩
      have hy : y = b0 ++ pat ++ a0 := splitFirst_eq_append h
      have hyl : pat.length + a0.length ≤ y.length := by
        rw [hy]
        simp only [List.length_append]
        omega
      rw [List.length_drop]
      simp only [List.length_cons, List.length_append]
      omega
    · rw [if_neg hp]
      obtain ⟨b, a, hsf, hle⟩ := ih h
      exact ⟨c :: b, a, by rw [hsf, Option.map_some'], hle⟩

/-- A two-character pattern `[a, b]` with `a ≠ b` that does not occur in
`key` is first found exactly at the boundary in `key ++ a :: b :: rest`. -/
theorem splitFirst_pair_boundary {a b : Char} (hab : a ≠ b) :
    ∀ (key rest : Str), splitFirst [a, b] key = none →
      splitFirst [a, b] (key ++ a :: b :: rest) = some (key, rest) := by
  intro key
  induction key with
  | nil =>
    intro rest h
    rw [List.nil_append, splitFirst]
    have hp : List.isPrefixOf [a, b] (a :: b :: rest) = true := by
      simp [List.isPrefixOf]
    rw [if_pos hp]
    rfl
  | cons c t ih =>
    intro rest h
    rw [splitFirst] at h
    by_cases hp : List.isPrefixOf [a, b] (c :: t)
    · rw [if_pos hp] at h
      cases h
    · rw [if_neg hp] at h
      have ht : splitFirst [a, b] t = none := by
        cases hsf : splitFirst [a, b] t with
        | none => rfl
        | some p => rw [hsf, Option.map_some'] at h; cases h
      rw [List.cons_append, splitFirst]
      have hp2 : ¬ List.isPrefixOf [a, b] (c :: (t ++ a :: b :: rest)) = true := by
        intro hpre
        cases t with
        | nil =>
          simp only [List.nil_append, List.isPrefixOf, Bool.and_eq_true, beq_iff_eq] at hpre
          exact hab hpre.2.1.symm
        | cons d t2 =>
          simp only [List.cons_append, List.isPrefixOf, Bool.and_eq_true, beq_iff_eq] at hpre
          apply hp
          simp only [List.isPrefixOf, Bool.and_eq_true, beq_iff_eq]
          exact ⟨hpre.1, hpre.2.1, by simp [List.isPrefixOf]⟩
      rw [if_neg hp2, ih rest ht, Option.map_some']

/-- A one-character pattern `[e]` not occurring in `b` is first found at
the boundary in `b ++ e :: v`. -/
theorem splitFirst_single_boundary {e : Char} :
    ∀ (b v : Str), e ∉ b → splitFirst [e] (b ++ e :: v) = some (b, v) := by
  intro b
  induction b with
  | nil =>
    intro v h
    rw [List.nil_append, splitFirst]
    have hp : List.isPrefixOf [e] (e :: v) = true := by simp [List.isPrefixOf]
    rw [if_pos hp]
    rfl
  | cons c t ih =>
    intro v h
    rw [List.cons_append, splitFirst]
    have hc : c ≠ e := fun he => h (he ▸ List.mem_cons_self _ _)
    have hp : ¬ List.isPrefixOf [e] (c :: (t ++ e :: v)) = true := by
      simp only [List.isPrefixOf, Bool.and_eq_true, beq_iff_eq]
      intro hpre
      exact hc hpre.1.symm
    rw [if_neg hp, ih v (fun hm => h (List.mem_cons_of_mem _ hm)), Option.map_some']

theorem splitFirst_pair_of_not_mem {x e : Char} :
    ∀ s : Str, e ∉ s → splitFirst [x, e] s = none := by
  intro s
  induction s with
  | nil => intro h; rfl
  | cons c t ih =>
    intro h
    rw [splitFirst]
    have hp : ¬ List.isPrefixOf [x, e] (c :: t) = true := by
      simp only [List.isPrefixOf, Bool.and_eq_true, beq_iff_eq]
      intro hpre
      cases t with
      | nil => simp [List.isPrefixOf] at hpre
      | cons d t2 =>
        simp only [List.isPrefixOf, Bool.and_eq_true, beq_iff_eq] at hpre
        exact h (List.mem_cons_of_mem _ (hpre.2.1 ▸ List.mem_cons_self _ _))
    rw [if_neg hp, ih (fun hm => h (List.mem_cons_of_mem _ hm)), Option.map_none']

/-- A pattern `[x, e]` does not occur in `path ++ c0 :: e :: value` when
`x` matches neither `c0` nor `e`, and `e` occurs nowhere else. -/
theorem splitFirst_pair_none (x e c0 : Char) (hxc : x ≠ c0) (hxe : x ≠ e) (hec : e ≠ c0) :
    ∀ (path value : Str), e ∉ path → e ∉ value →
      splitFirst [x, e] (path ++ c0 :: e :: value) = none := by
  intro path
  induction path with
  | nil =>
    intro value hp hv
    rw [List.nil_append, splitFirst]
    have h1 : ¬ List.isPrefixOf [x, e] (c0 :: e :: value) = true := by
      simp only [List.isPrefixOf, Bool.and_eq_true, beq_iff_eq]
      intro hpre
      exact hxc hpre.1
    rw [if_neg h1, splitFirst]
    have h2 : ¬ List.isPrefixOf [x, e] (e :: value) = true := by
      simp only [List.isPrefixOf, Bool.and_eq_true, beq_iff_eq]
      intro hpre
      exact hxe hpre.1
    rw [if_neg h2, splitFirst_pair_of_not_mem value hv, Option.map_none', Option.map_none']
  | cons c t ih =>
    intro value hp hv
    have hc : c ≠ e := fun he => hp (he ▸ List.mem_cons_self _ _)
    rw [List.cons_append, splitFirst]
    have h1 : ¬ List.isPrefixOf [x, e] (c :: (t ++ c0 :: e :: value)) = true := by
      simp only [List.isPrefixOf, Bool.and_eq_true, beq_iff_eq]
      intro hpre
      cases t with
      | nil =>
        simp only [List.nil_append, List.isPrefixOf, Bool.and_eq_true, beq_iff_eq] at hpre
        exact hec hpre.2.1
      | cons d t2 =>
        simp only [List.cons_append, List.isPrefixOf, Bool.and_eq_true, beq_iff_eq] at hpre
        exact hp (List.mem_cons_of_mem _ (hpre.2.1 ▸ List.mem_cons_self _ _))
    rw [if_neg h1, ih value (fun hm => hp (List.mem_cons_of_mem _ hm)) hv, Option.map_none']

/-- An occurrence of `[x, e]` contains an occurrence of `[e]`. -/
theorem splitFirst_single_of_pair {x e : Char} :
    ∀ s : Str, (splitFirst [x, e] s).isSome → (splitFirst [e] s).isSome := by
  intro s
  induction s with
  | nil =>
    intro h
    rw [splitFirst] at h
    simp [List.isPrefixOf] at h
  | cons c t ih =>
    intro h
    rw [splitFirst] at h
    rw [splitFirst]
    by_cases hp : List.isPrefixOf [x, e] (c :: t)
    · cases t with
      | nil => simp [List.isPrefixOf] at hp
      | cons d t2 =>
        simp only [List.isPrefixOf, Bool.and_eq_true, beq_iff_eq] at hp
        by_cases hc : List.isPrefixOf [e] (c :: d :: t2) = true
        · rw [if_pos hc]; rfl
        · rw [if_neg hc]
          have : (splitFirst [e] (d :: t2)).isSome := by
            rw [splitFirst]
            have : List.isPrefixOf [e] (d :: t2) = true := by
              simp [List.isPrefixOf, hp.2.1.symm]
            rw [if_pos this]
            rfl
          cases hsf : splitFirst [e] (d :: t2) with
          | none => rw [hsf] at this; cases this
          | some p => rfl
    · rw [if_neg hp] at h
      have ht : (splitFirst [x, e] t).isSome := by
        cases hsf : splitFirst [x, e] t with
        | none => rw [hsf] at h; cases h
        | some p => rfl
      by_cases hc : List.isPrefixOf [e] (c :: t) = true
      · rw [if_pos hc]; rfl
      · rw [if_neg hc]
        cases hsf : splitFirst [e] t with
        | none =>
          have := ih ht
          rw [hsf] at this
          cases this
        | some p => rw [Option.map_some']; rfl

/-! ## Claim theorems -/

/-- C1 scenario: a one-resource collection and a single always-true
filter. -/
def c1Res : Resource :=
  { id := "r1".data, type' := "t".data, name := [], provider := "p".data }

/-- The source collection of the C1 scenario. -/
def c1Src : Collection := (NewCollection 0).add c1Res

/-- The result pair of `ApplyFilters` on the C1 scenario (`.1` the
returned collection, `.2` the source as observable after the call). -/
def c1Pair : Collection × Collection :=
  ApplyFilters (fun _ _ => false) 0 c1Src [GoFilter.fprovider { providers := [] }]

/-- C1: `ApplyFilters` is claimed never to mutate the source collection.
In fact the Go struct assignment `filtered.Metadata = collection.Metadata`
aliases the metadata maps, so re-`Add`ing the matches increments the
source's aggregate counters: after filtering a one-resource collection
with an all-matching filter, the source's `ByType["t"]` reads 2 (it was 1
before the call) even though its resource list and `TotalCount` are
untouched. -/
theorem c1_applyFilters_mutates_source_aggregates :
    lookupStr c1Src.metadata.byType ("t".data) = some 1 ∧
    lookupStr c1Pair.2.metadata.byType ("t".data) = some 2 ∧
    lookupStr c1Pair.2.metadata.byProvider ("p".data) = some 2 ∧
    c1Pair.2.resources = c1Src.resources ∧
    c1Pair.2.metadata.totalCount = c1Src.metadata.totalCount :=
  ⟨rfl, rfl, rfl, rfl, rfl⟩

/-- C2 scenario: base resource `a`. -/
def c2BaseA : Resource :=
  { id := "a".data, type' := [], name := "x".data, provider := [],
    tags := [("env".data, "prod".data)] }

/-- C2 scenario: compare-side resource `a` (renamed). -/
def c2CompA : Resource :=
  { id := "a".data, type' := [], name := "y".data, provider := [],
    tags := [("env".data, "prod".data)] }

/-- C2 scenario: compare-side new resource `b`. -/
def c2CompB : Resource :=
  { id := "b".data, type' := [], name := "new".data, provider := [] }

/-- C2 base collection. -/
def c2Base : Collection := (NewCollection 0).add c2BaseA

/-- C2 compare collection. -/
def c2Compare : Collection := ((NewCollection 0).add c2CompA).add c2CompB

/-- C2: drift of the spec's concrete scenario — added is exactly the
resource with id `b`, removed is empty, and modified is exactly one entry
for id `a` whose change set is exactly the `name` change from `x` to
`y`. -/
theorem c2_drift_scenario :
    (generateDriftReport c2Base c2Compare).added = [c2CompB] ∧
    (generateDriftReport c2Base c2Compare).removed = [] ∧
    (generateDriftReport c2Base c2Compare).modified.map
      (fun d => (d.resourceId, d.changes)) =
      [("a".data, [("name".data, (GoValue.vstr ("x".data), GoValue.vstr ("y".data)))])] :=
  ⟨rfl, rfl, rfl⟩

/-- The filter produced for `created:2024-01-02`
(`1704153600 = 2024-01-02T00:00:00Z` in epoch seconds). -/
def c5Filter : DateRangeFilter :=
  { field := "created".data, fromDate := some 1704153600, toDate := some 1704240000 }

/-- A resource created exactly at DATE+24h (2024-01-03T00:00:00Z). -/
def c5ResAtNextMidnight : Resource :=
  { id := [], type' := [], name := [], provider := [], createdAt := some 1704240000 }

/-- A resource created exactly at DATE. -/
def c5ResAtDate : Resource :=
  { id := [], type' := [], name := [], provider := [], createdAt := some 1704153600 }

/-- C5: `FIELD:DATE` is claimed to cover the half-open day
`[DATE, DATE+24h)`.  The parser does set `From = DATE` and
`To = DATE + 24h`, but `Apply` rejects only timestamps strictly after
`To`, so the timestamp `DATE+24h` itself (midnight of the next day)
matches: the implemented interval is the closed `[DATE, DATE+24h]`. -/
theorem c5_single_date_upper_bound_inclusive :
    ParseDateRangeFilter ("created:2024-01-02".data) = .ok c5Filter ∧
    c5Filter.toDate = some (1704153600 + 86400) ∧
    c5Filter.apply c5ResAtDate = true ∧
    c5Filter.apply c5ResAtNextMidnight = true :=
  ⟨rfl, rfl, rfl, rfl⟩

/-- C3 scenario: the first populated probe key (`state`) does not match,
a later one (`status`) does. -/
def c3Res : Resource :=
  { id := [], type' := [], name := [], provider := [],
    properties := [("state".data, .vstr ("stopped".data)),
                   ("status".data, .vstr ("running".data))] }

/-- C3 counterexample: the claim says `Apply` consults only the first
populated probe key, but on a resource whose `state` is `stopped` and
whose `status` is `running`, the code returns `true` for the state list
`[running]` while the first-populated-key reading returns `false` — the
loop keeps probing keys after the first populated one. -/
theorem c3_counterexample_later_key_consulted :
    StateFilter.apply { states := ["running".data] } c3Res = true ∧
    stateFilterSpecApply { states := ["running".data] } c3Res = false :=
  ⟨rfl, rfl⟩

/-- C3 (amended): for a non-empty state list, `Apply` returns true iff
SOME populated probe key (not merely the first) has a string rendering
case-insensitively equal to one of the listed states. -/
theorem c3_state_filter_any_populated_key (f : StateFilter) (r : Resource)
    (hne : f.states ≠ []) :
    StateFilter.apply f r = true ↔
      ∃ k ∈ stateKeys, ∃ v, lookupStr r.properties k = some v ∧
        ∃ s ∈ f.states, lowerStr s = lowerStr (goRender v) := by
  unfold StateFilter.apply
  rw [if_neg (by simpa using hne)]
  constructor
  · intro h
    obtain ⟨k, hk, hg⟩ := List.any_eq_true.mp h
    cases hl : lookupStr r.properties k with
    | none => rw [hl] at hg; cases hg
    | some v =>
      rw [hl] at hg
      obtain ⟨s, hs, heq⟩ := List.any_eq_true.mp hg
      exact ⟨k, hk, v, hl, s, hs, by simpa using heq⟩
  · rintro ⟨k, hk, v, hl, s, hs, heq⟩
    apply List.any_eq_true.mpr
    refine ⟨k, hk, ?_⟩
    rw [hl]
    exact List.any_eq_true.mpr ⟨s, hs, by simpa using heq⟩

/-- C3 witness: the amended equivalence applied at the concrete scenario
(`status = running` is a populated probe key matching the list). -/
theorem c3_state_filter_any_populated_key_witness :
    StateFilter.apply { states := ["running".data] } c3Res = true :=
  (c3_state_filter_any_populated_key { states := ["running".data] } c3Res
    (by decide)).mpr
    ⟨"status".data, by decide, .vstr ("running".data), rfl,
     "running".data, by decide, by decide⟩

/-- C4 scenario: two distinct resources sharing one id. -/
def c4Dup1 : Resource := { id := "a".data, type' := [], name := "n1".data, provider := [] }

/-- C4 scenario: the second resource with the duplicated id. -/
def c4Dup2 : Resource := { id := "a".data, type' := [], name := "n2".data, provider := [] }

/-- C4 scenario: a collection whose ordered list has two entries but
whose id index has one. -/
def c4DupCol : Collection := ((NewCollection 0).add c4Dup1).add c4Dup2

/-- C4 counterexample: the claim says the unchanged output of `diff(A,A)`
equals `A`'s resource list; but the report carries only an unchanged
count, and for a collection with a duplicated id that count is the number
of distinct ids (1), not the resource-list length (2). -/
theorem c4_counterexample_unchanged_not_resource_list :
    (generateDriftReport c4DupCol c4DupCol).summary.totalUnchanged = 1 ∧
    c4DupCol.resources.length = 2 ∧
    (generateDriftReport c4DupCol c4DupCol).added = [] ∧
    (generateDriftReport c4DupCol c4DupCol).removed = [] ∧
    (generateDriftReport c4DupCol c4DupCol).modified = [] :=
  ⟨rfl, rfl, rfl, rfl, rfl⟩

/-- C4 (amended): for every collection (whose resources carry Go-map
properties, i.e. pairwise-distinct property keys), `diff(A,A)` has empty
added, removed and modified sets, and its unchanged count equals the size
of the id index of `A`'s resource list — the number of distinct ids,
which is the resource-list length exactly when ids are unique. -/
theorem c4_diff_self_empty (A : Collection)
    (h : ∀ r ∈ A.resources, (r.properties.map Prod.fst).Nodup) :
    (generateDriftReport A A).added = [] ∧
    (generateDriftReport A A).removed = [] ∧
    (generateDriftReport A A).modified = [] ∧
    (generateDriftReport A A).summary.totalUnchanged = (buildIndex A.resources).length := by
  have hIdx : ∀ p ∈ buildIndex A.resources,
      lookupStr (buildIndex A.resources) p.1 = some p.2 := by
    intro p hp
    obtain ⟨k, r⟩ := p
    exact buildIndex_lookup hp
  have hscan : scanCompare (buildIndex A.resources) (buildIndex A.resources) =
      ([], [], (buildIndex A.resources).length) := by
    apply scanCompare_all_unchanged
    intro p hp
    exact ⟨hIdx p hp,
      compareResources_self_changes p.2 (h p.2 (buildIndex_mem hp))⟩
  have hrem : (buildIndex A.resources).filter
      (fun p => (lookupStr (buildIndex A.resources) p.1).isNone) = [] := by
    apply List.filter_eq_nil_iff.mpr
    intro p hp
    rw [hIdx p hp]
    simp
  simp only [generateDriftReport, hscan, hrem, List.map_nil, List.length_nil]
  exact ⟨trivial, trivial, trivial, trivial⟩

/-- C4 witness: the amended statement applied to the duplicate-id
collection (whose resources have no properties). -/
theorem c4_diff_self_empty_witness :
    (generateDriftReport c4DupCol c4DupCol).added = [] ∧
    (generateDriftReport c4DupCol c4DupCol).summary.totalUnchanged =
      (buildIndex c4DupCol.resources).length :=
  ⟨(c4_diff_self_empty c4DupCol (by decide)).1,
   (c4_diff_self_empty c4DupCol (by decide)).2.2.2⟩

theorem updateCostMetadata_totalCount (md : CollectionMetadata) (r : Resource)
    (rc : ResourceCost) :
    (updateCostMetadata md r rc).totalCount = md.totalCount := by
  unfold updateCostMetadata
  rfl

/-- `Collection.Add` always increments `TotalCount` by exactly one. -/
theorem addResourceMeta_totalCount (md : CollectionMetadata) (r : Resource) :
    (addResourceMeta md r).totalCount = md.totalCount + 1 := by
  unfold addResourceMeta
  cases hc : r.cost with
  | none => split_ifs <;> rfl
  | some rc =>
    have hcost : ∀ (mdi : CollectionMetadata),
        (if rc.monthlyEstimate > 0 then updateCostMetadata mdi r rc else mdi).totalCount
          = mdi.totalCount := by
      intro mdi
      by_cases h : rc.monthlyEstimate > 0
      · rw [if_pos h]
        exact updateCostMetadata_totalCount mdi r rc
      · rw [if_neg h]
    rw [hcost]
    split_ifs <;> rfl

/-- C7: adding a second resource with an already-present id is not
rejected; afterwards the index lookup returns the newer resource
(last write wins) while the ordered list retains both entries and
`TotalCount` counts both. -/
theorem c7_duplicate_id_last_write_wins (c : Collection) (r1 r2 : Resource)
    (hid : r1.id = r2.id) :
    ((c.add r1).add r2).get r2.id = some r2 ∧
    ((c.add r1).add r2).resources = c.resources ++ [r1, r2] ∧
    ((c.add r1).add r2).metadata.totalCount = c.metadata.totalCount + 2 := by
  refine ⟨?_, ?_, ?_⟩
  · unfold Collection.get Collection.add
    exact lookupStr_upsert_self _ _ _
  · unfold Collection.add
    simp
  · unfold Collection.add
    simp only [addResourceMeta_totalCount]

/-- C7 scenario: first resource with id `x`. -/
def c7First : Resource := { id := "x".data, type' := [], name := "old".data, provider := [] }

/-- C7 scenario: second resource with the same id `x`. -/
def c7Second : Resource := { id := "x".data, type' := [], name := "new".data, provider := [] }

/-- C7 witness: two concrete resources with the same id `x` added to an
empty collection. -/
theorem c7_duplicate_id_last_write_wins_witness :
    (((NewCollection 0).add c7First).add c7Second).get c7Second.id = some c7Second ∧
    (((NewCollection 0).add c7First).add c7Second).resources = [c7First, c7Second] ∧
    (((NewCollection 0).add c7First).add c7Second).metadata.totalCount = 2 :=
  c7_duplicate_id_last_write_wins (NewCollection 0) c7First c7Second rfl

/-- C9: the cost filter reads only the flattened property fields.  For
every `CostFilter` and resource, (1) when `properties` holds neither
`cost` nor `monthly_cost`, `Apply` is false — the quantification over `r`
covers any structured `Resource.Cost` value, which is never consulted;
(2) when the probed property coerces to a number `q`, `Apply` is true iff
`q` lies inclusively within whichever of the min/max bounds are set. -/
theorem c9_cost_filter_reads_flattened_properties (f : CostFilter) (r : Resource) :
    (lookupStr r.properties ("cost".data) = none →
     lookupStr r.properties ("monthly_cost".data) = none →
     CostFilter.apply f r = false) ∧
    (∀ v q, costProperty r = some v → toFloat64 v = some q →
      (CostFilter.apply f r = true ↔
        ((∀ mn, f.minCost = some mn → mn ≤ q) ∧ (∀ mx, f.maxCost = some mx → q ≤ mx)))) := by
  obtain ⟨mno, mxo⟩ := f
  constructor
  · intro h1 h2
    unfold CostFilter.apply costProperty
    rw [h1, h2]
  · intro v q hv hq
    simp only [CostFilter.apply, hv, hq]
    cases mno with
    | none =>
      cases mxo with
      | none => simp
      | some mx => simp [not_lt]
    | some mn =>
      cases mxo with
      | none => simp [not_lt]
      | some mx =>
        by_cases hbm : q < mn
        · simp [hbm, not_lt]
        · by_cases ham : mx < q
          · simp [hbm, ham, not_lt]
          · simp [hbm, ham, not_lt.mp hbm, not_lt.mp ham]

/-- C9 witness: a resource with a structured cost but no flattened cost
property is rejected, and a flattened numeric cost inside the bounds is
accepted. -/
theorem c9_cost_filter_reads_flattened_properties_witness :
    CostFilter.apply { minCost := some 1 }
      { id := [], type' := [], name := [], provider := [],
        cost := some { monthlyEstimate := 5, currency := [], breakdown := [],
                       lastUpdated := 0 } } = false ∧
    CostFilter.apply { minCost := some 1, maxCost := some 20 }
      { id := [], type' := [], name := [], provider := [],
        properties := [("cost".data, GoValue.vfloat 15)] } = true :=
  ⟨(c9_cost_filter_reads_flattened_properties { minCost := some 1 }
      { id := [], type' := [], name := [], provider := [],
        cost := some { monthlyEstimate := 5, currency := [], breakdown := [],
                       lastUpdated := 0 } }).1 rfl rfl,
   ((c9_cost_filter_reads_flattened_properties { minCost := some 1, maxCost := some 20 }
      { id := [], type' := [], name := [], provider := [],
        properties := [("cost".data, GoValue.vfloat 15)] }).2 (GoValue.vfloat 15) 15
      rfl rfl).mpr
     ⟨fun mn hmn => by cases hmn; norm_num,
      fun mx hmx => by cases hmx; norm_num⟩⟩

/-- The filter parsed from `count>10`. -/
def c8Filter : PropertyFilter :=
  { path := "count".data, operator := .opGt, value := .vint 10 }

/-- C8 scenario: `properties = {count: 15}`. -/
def c8Res15 : Resource :=
  { id := [], type' := [], name := [], provider := [],
    properties := [("count".data, .vint 15)] }

/-- C8 scenario: `properties = {count: "abc"}`. -/
def c8ResAbc : Resource :=
  { id := [], type' := [], name := [], provider := [],
    properties := [("count".data, .vstr ("abc".data))] }

/-- C8: `count>10` parses to a greater-than property filter with value
`10`; applied to a numeric `count = 15` it matches, to a non-numeric
`count = "abc"` it does not; and in general, under the four numeric
operators, any operand that `toFloat64` cannot coerce makes the
comparison return `false` (the comparison is a total function — no
error). -/
theorem c8_property_numeric_filter :
    ParsePropertyFilter ("count>10".data) = .ok c8Filter ∧
    c8Filter.apply c8Res15 = true ∧
    c8Filter.apply c8ResAbc = false ∧
    (∀ (f : PropertyFilter) (a e : GoValue),
      (f.operator = .opGt ∨ f.operator = .opGe ∨ f.operator = .opLt ∨ f.operator = .opLe) →
      (toFloat64 a = none ∨ toFloat64 e = none) →
      f.compare a e = false) := by
  refine ⟨rfl, rfl, rfl, ?_⟩
  intro f a e hop hfail
  have hnum : f.compareNumeric a e = false := by
    unfold PropertyFilter.compareNumeric
    cases ha : toFloat64 a with
    | none => rfl
    | some qa =>
      cases he : toFloat64 e with
      | none => rfl
      | some qe =>
        rcases hfail with h | h
        · rw [ha] at h; cases h
        · rw [he] at h; cases h
  unfold PropertyFilter.compare
  rcases hop with h | h | h | h <;> rw [h] <;> exact hnum

/-- C8 witness: the coercion-failure clause applied at the parsed filter
with the non-numeric operand `"abc"`. -/
theorem c8_property_numeric_filter_witness :
    PropertyFilter.compare c8Filter (.vstr ("abc".data)) (.vint 10) = false :=
  c8_property_numeric_filter.2.2.2 c8Filter (.vstr ("abc".data)) (.vint 10)
    (Or.inl rfl) (Or.inl rfl)

/-- C6 counterexample: the claim says parsing `KEY!=VALUE` with a
non-empty `VALUE` always fails, but for `VALUE = /x/` the expression
matches the regex form (`=/` with a trailing slash), which is checked
first, so `env!=/x/` parses successfully — as a regex tag filter whose
key is `env!`. -/
theorem c6_counterexample_regex_value_accepted :
    ParseTagFilter ("env!=/x/".data) =
      .ok { key := "env!".data, value := "x".data, operator := .opMatches } := rfl

/-- C6 scenario: a resource with no tags at all. -/
def c6Res : Resource := { id := [], type' := [], name := [], provider := [] }

/-- C6 (amended): for a key not containing `!=`, parsing `KEY!=` yields
the not-exists filter, which matches exactly the resources whose tags
lack `KEY` (an absent and an empty tag map behave identically); and
parsing `KEY!=VALUE` with non-empty `VALUE` fails with a descriptive
error **provided** the full expression does not have the tag-regex shape
(containing `=/` and ending in `/`), which is checked first and would
otherwise succeed as a regex filter. -/
theorem c6_tag_not_exists_only (key value : Str) (rm : Str → Str → Bool) (r : Resource)
    (hkey : strContains key ['!', '='] = false)
    (hval : value ≠ [])
    (hguard : (strContains (key ++ '!' :: '=' :: value) ['=', '/'] &&
      strHasSuffix (key ++ '!' :: '=' :: value) ['/']) = false) :
    (ParseTagFilter (key ++ ['!', '=']) =
      .ok { key := key, value := [], operator := .opNotExists }) ∧
    (TagFilter.apply rm { key := key, value := [], operator := .opNotExists } r = true ↔
      lookupStr r.tags key = none) ∧
    (∃ msg, ParseTagFilter (key ++ '!' :: '=' :: value) = .error msg) := by
  have hkn : splitFirst ['!', '='] key = none := by
    cases h : splitFirst ['!', '='] key with
    | none => rfl
    | some p =>
      unfold strContains at hkey
      rw [h] at hkey
      simp at hkey
  have hsplit := splitFirst_pair_boundary (show ('!' : Char) ≠ '=' by decide) key [] hkn
  have hne : key ++ ['!', '='] ≠ [] := by simp
  have hsuf : strHasSuffix (key ++ ['!', '=']) ['/'] = false := by
    unfold strHasSuffix
    rw [List.reverse_append]
    rfl
  have hguardA : (strContains (key ++ ['!', '=']) ['=', '/'] &&
      strHasSuffix (key ++ ['!', '=']) ['/']) = false := by
    rw [hsuf, Bool.and_false]
  have hcont : strContains (key ++ ['!', '=']) ['!', '='] = true := by
    unfold strContains
    rw [hsplit]
    rfl
  refine ⟨?_, ?_, ?_⟩
  · unfold ParseTagFilter
    rw [if_neg hne, hguardA, if_neg Bool.false_ne_true, if_pos hcont, hsplit]
    rfl
  · unfold TagFilter.apply
    exact Option.isNone_iff_eq_none
  · have hy : splitFirst ['!', '='] ('!' :: '=' :: value) = some ([], value) := by
      rw [splitFirst]
      rw [if_pos (by simp [List.isPrefixOf])]
      rfl
    obtain ⟨b, a, hsf, hlen⟩ := splitFirst_append_left key hy
    have hne2 : key ++ '!' :: '=' :: value ≠ [] := by simp
    have hcont2 : strContains (key ++ '!' :: '=' :: value) ['!', '='] = true := by
      unfold strContains
      rw [hsf]
      rfl
    have hane : a ≠ [] := by
      intro h0
      rw [h0] at hlen
      exact hval (List.length_eq_zero.mp (Nat.le_zero.mp (by simpa using hlen)))
    refine ⟨("tag != operator not directly supported, use regex instead".data), ?_⟩
    unfold ParseTagFilter
    rw [if_neg hne2, hguard, if_neg Bool.false_ne_true, if_pos hcont2, hsf]
    simp [hane]

/-- C6 witness: `env!=` parses to the not-exists filter and matches the
untagged resource; `env!=prod` fails to parse. -/
theorem c6_tag_not_exists_only_witness :
    (ParseTagFilter ("env!=".data) =
      .ok { key := "env".data, value := [], operator := .opNotExists }) ∧
    (∃ msg, ParseTagFilter ("env!=prod".data) = .error msg) :=
  ⟨(c6_tag_not_exists_only ("env".data) ("prod".data) (fun _ _ => false) c6Res
      (by decide) (by decide) (by decide)).1,
   (c6_tag_not_exists_only ("env".data) ("prod".data) (fun _ _ => false) c6Res
      (by decide) (by decide) (by decide)).2.2⟩

theorem findOp_step_none {op : CompareOperator} {sym : Str} {rest : List (CompareOperator × Str)}
    {expr : Str} (h : splitFirst sym expr = none) :
    findOp ((op, sym) :: rest) expr = findOp rest expr := by
  rw [findOp, h]

theorem findOp_step_some {op : CompareOperator} {sym : Str} {rest : List (CompareOperator × Str)}
    {expr a b : Str} (h : splitFirst sym expr = some (a, b)) :
    findOp ((op, sym) :: rest) expr =
      .ok { path := a, operator := op, value := parseValue b } := by
  rw [findOp, h]

/-- C10: the starts-with (`^=`) and ends-with (`$=`) operators are
unreachable through the textual grammar: (1) no successfully parsed
property filter carries either operator — an expression containing `^=`
or `$=` also contains `=`, which is sniffed earlier in the precedence
list; (2) concretely, `PATH^=VALUE` (and `PATH$=VALUE`) with no other
`=` anywhere parses as an *equals* comparison whose property path ends in
`^` (resp. `$`). -/
theorem c10_starts_ends_with_unreachable (expr path value : Str) (f : PropertyFilter) :
    (ParsePropertyFilter expr = .ok f →
      f.operator ≠ .opStartsWith ∧ f.operator ≠ .opEndsWith) ∧
    ('=' ∉ path → '=' ∉ value →
      ParsePropertyFilter (path ++ '^' :: '=' :: value) =
        .ok { path := path ++ ['^'], operator := .opEq, value := parseValue value } ∧
      ParsePropertyFilter (path ++ '$' :: '=' :: value) =
        .ok { path := path ++ ['$'], operator := .opEq, value := parseValue value }) := by
  constructor
  · intro h
    rw [ParsePropertyFilter, propOperators] at h
    cases h1 : splitFirst ['>', '='] expr with
    | some p =>
      obtain ⟨a, b⟩ := p
      rw [findOp_step_some h1] at h
      injection h with h
      rw [← h]
      exact ⟨by simp, by simp⟩
    | none =>
    rw [findOp_step_none h1] at h
    cases h2 : splitFirst ['<', '='] expr with
    | some p =>
      obtain ⟨a, b⟩ := p
      rw [findOp_step_some h2] at h
      injection h with h
      rw [← h]
      exact ⟨by simp, by simp⟩
    | none =>
    rw [findOp_step_none h2] at h
    cases h3 : splitFirst ['!', '='] expr with
    | some p =>
      obtain ⟨a, b⟩ := p
      rw [findOp_step_some h3] at h
      injection h with h
      rw [← h]
      exact ⟨by simp, by simp⟩
    | none =>
    rw [findOp_step_none h3] at h
    cases h4 : splitFirst ['='] expr with
    | some p =>
      obtain ⟨a, b⟩ := p
      rw [findOp_step_some h4] at h
      injection h with h
      rw [← h]
      exact ⟨by simp, by simp⟩
    | none =>
    rw [findOp_step_none h4] at h
    cases h5 : splitFirst ['>'] expr with
    | some p =>
      obtain ⟨a, b⟩ := p
      rw [findOp_step_some h5] at h
      injection h with h
      rw [← h]
      exact ⟨by simp, by simp⟩
    | none =>
    rw [findOp_step_none h5] at h
    cases h6 : splitFirst ['<'] expr with
    | some p =>
      obtain ⟨a, b⟩ := p
      rw [findOp_step_some h6] at h
      injection h with h
      rw [← h]
      exact ⟨by simp, by simp⟩
    | none =>
    rw [findOp_step_none h6] at h
    cases h7 : splitFirst ['~'] expr with
    | some p =>
      obtain ⟨a, b⟩ := p
      rw [findOp_step_some h7] at h
      injection h with h
      rw [← h]
      exact ⟨by simp, by simp⟩
    | none =>
    rw [findOp_step_none h7] at h
    cases h8 : splitFirst ['^', '='] expr with
    | some p =>
      exfalso
      have h8s : (splitFirst ['^', '='] expr).isSome = true := by rw [h8]; rfl
      have hs := splitFirst_single_of_pair expr h8s
      rw [h4] at hs
      simp at hs
    | none =>
    rw [findOp_step_none h8] at h
    cases h9 : splitFirst ['$', '='] expr with
    | some p =>
      exfalso
      have h9s : (splitFirst ['$', '='] expr).isSome = true := by rw [h9]; rfl
      have hs := splitFirst_single_of_pair expr h9s
      rw [h4] at hs
      simp at hs
    | none =>
    rw [findOp_step_none h9, findOp] at h
    exact Except.noConfusion h
  · intro hpath hvalue
    constructor
    · have h1 := splitFirst_pair_none '>' '=' '^'
        (by decide) (by decide) (by decide) path value hpath hvalue
      have h2 := splitFirst_pair_none '<' '=' '^'
        (by decide) (by decide) (by decide) path value hpath hvalue
      have h3 := splitFirst_pair_none '!' '=' '^'
        (by decide) (by decide) (by decide) path value hpath hvalue
      have h4 : splitFirst ['='] (path ++ '^' :: '=' :: value) =
          some (path ++ ['^'], value) := by
        have heq : path ++ '^' :: '=' :: value = (path ++ ['^']) ++ '=' :: value := by
          simp
        rw [heq]
        apply splitFirst_single_boundary
        intro hm
        rcases List.mem_append.mp hm with hm | hm
        · exact hpath hm
        · simp at hm
      rw [ParsePropertyFilter, propOperators, findOp_step_none h1, findOp_step_none h2,
        findOp_step_none h3, findOp_step_some h4]
    · have h1 := splitFirst_pair_none '>' '=' '$'
        (by decide) (by decide) (by decide) path value hpath hvalue
      have h2 := splitFirst_pair_none '<' '=' '$'
        (by decide) (by decide) (by decide) path value hpath hvalue
      have h3 := splitFirst_pair_none '!' '=' '$'
        (by decide) (by decide) (by decide) path value hpath hvalue
      have h4 : splitFirst ['='] (path ++ '$' :: '=' :: value) =
          some (path ++ ['$'], value) := by
        have heq : path ++ '$' :: '=' :: value = (path ++ ['$']) ++ '=' :: value := by
          simp
        rw [heq]
        apply splitFirst_single_boundary
        intro hm
        rcases List.mem_append.mp hm with hm | hm
        · exact hpath hm
        · simp at hm
      rw [ParsePropertyFilter, propOperators, findOp_step_none h1, findOp_step_none h2,
        findOp_step_none h3, findOp_step_some h4]

/-- C10 witness: `a^=b` parses as an equals filter whose path is `a^`,
and its operator is therefore not starts-with. -/
theorem c10_starts_ends_with_unreachable_witness :
    ParsePropertyFilter ("a^=b".data) =
      .ok { path := "a^".data, operator := .opEq, value := parseValue ("b".data) } ∧
    ({ path := "a^".data, operator := .opEq, value := parseValue ("b".data) }
        : PropertyFilter).operator ≠ .opStartsWith :=
  ⟨((c10_starts_ends_with_unreachable ("a^=b".data) ("a".data) ("b".data)
      { path := "a^".data, operator := .opEq, value := parseValue ("b".data) }).2
      (by decide) (by decide)).1,
   ((c10_starts_ends_with_unreachable ("a^=b".data) ("a".data) ("b".data)
      { path := "a^".data, operator := .opEq, value := parseValue ("b".data) }).1
      (((c10_starts_ends_with_unreachable ("a^=b".data) ("a".data) ("b".data)
        { path := "a^".data, operator := .opEq, value := parseValue ("b".data) }).2
        (by decide) (by decide)).1)).1⟩
